import Mathlib

/-!
A shallow embedding of `src/atlas_core.py` (ATLAS-NeuroCrucible).

Modelling conventions:
* Python `float` is modelled as `ℚ`; every numeric constant in the source
  (0.02, 0.05, 0.1, 0.15, 0.5, 0.6, 0.85, 0.99, 1e-6, 1e-7, 5e-6) is an
  exact decimal, so the arithmetic of the source is represented exactly.
* Python `str` is `String`; the Python primitives `in`, `replace`, `strip`,
  `lower`, `split` are re-implemented below over `List Char` with Python's
  semantics (left-to-right non-overlapping replacement, whitespace strip,
  separator split) so that all definitions compute by kernel reduction.
* Python `dict` (insertion ordered) is an association list with distinct
  keys; `collections.defaultdict(list)` lookup that inserts a missing key
  appends the new key at the end, as CPython does.
* `random.choice` is modelled by threading an explicit choice oracle
  (`Choices`) selecting an index into the fixed candidate list.
* Mutation of the shared core object is modelled by explicit state passing:
  each method of the source becomes a function from `CoreState` (and its
  arguments) to its result paired with the updated `CoreState`.
* `print` calls are side effects on the console only and are dropped.
-/

/-! ### Python string primitives -/

/-- Python `str.lower()` (per-character lowering). -/
def pyLowerL (cs : List Char) : List Char := cs.map Char.toLower

/-- Python `needle in hay` (substring containment), over char lists. -/
def containsL (needle : List Char) : List Char → Bool
  | [] => needle.isEmpty
  | c :: t => needle.isPrefixOf (c :: t) || containsL needle t

/-- Python `hay.__contains__ needle` on `String`. -/
def pyContains (hay needle : String) : Bool := containsL needle.data hay.data

/-- One pass of Python `s.replace(old, new)` with a non-empty pattern
`pc :: pr`: left-to-right, non-overlapping.  The fuel argument only bounds
the recursion (each step consumes at least one character, so fuel equal to
the length of the scanned list is always enough); it keeps the recursion
structural so that the kernel can evaluate it. -/
def replaceGo (pc : Char) (pr rep : List Char) : Nat → List Char → List Char
  | 0, s => s
  | _ + 1, [] => []
  | f + 1, c :: t =>
    if (pc :: pr).isPrefixOf (c :: t) then
      rep ++ replaceGo pc pr rep f (t.drop pr.length)
    else
      c :: replaceGo pc pr rep f t

/-- Python `s.replace(old, new)` (all occurrences; the empty-pattern case
never arises in this code base and is mapped to the identity). -/
def pyReplace (s old new : String) : String :=
  match old.data with
  | [] => s
  | pc :: pr => ⟨replaceGo pc pr new.data s.data.length s.data⟩

/-- Python whitespace for `str.strip()` / `str.split()`. -/
def isPySpace (c : Char) : Bool :=
  c = ' ' || c = '\t' || c = '\n' || c = '\r' || c = '\x0b' || c = '\x0c'

/-- Python `s.strip()`. -/
def pyStrip (s : String) : String :=
  ⟨((s.data.dropWhile isPySpace).reverse.dropWhile isPySpace).reverse⟩

/-- Python `s.split()` (split on whitespace runs, no empty pieces). -/
def pyWords (s : String) : List String :=
  ((s.data.splitOnP isPySpace).filter (fun w => ¬ w.isEmpty)).map (⟨·⟩)

/-- Python `s.split(sep)` with a non-empty separator `pc :: pr`; the fuel
argument keeps the recursion structural, exactly as in `replaceGo`. -/
def splitSepGo (pc : Char) (pr : List Char) : Nat → List Char →
    List Char → List (List Char)
  | 0, acc, _ => [acc.reverse]
  | _ + 1, acc, [] => [acc.reverse]
  | f + 1, acc, c :: t =>
    if (pc :: pr).isPrefixOf (c :: t) then
      acc.reverse :: splitSepGo pc pr f [] (t.drop pr.length)
    else
      splitSepGo pc pr f (c :: acc) t

/-- Python `s.split(sep)` on `String` (separator non-empty in this code base). -/
def pySplitSep (s sep : String) : List String :=
  match sep.data with
  | [] => [s]
  | pc :: pr => (splitSepGo pc pr s.data.length [] s.data).map (⟨·⟩)

/-- Python `s[:n]`. -/
def pyTake (s : String) (n : Nat) : String := ⟨s.data.take n⟩

/-- Python `s.lower()` on `String`. -/
def pyLower (s : String) : String := ⟨pyLowerL s.data⟩

/-- Python `" ".join(l)`. -/
def joinSpace : List String → String
  | [] => ""
  | [x] => x
  | x :: y :: t => x ++ " " ++ joinSpace (y :: t)

/-- Python `max(first :: rest, key := k)`: keeps the current best and
replaces it only on a strictly larger key, so the first maximal element
wins. -/
def pyMaxBy (k : String → ℚ) (first : String) (rest : List String) : String :=
  rest.foldl (fun best y => if k y > k best then y else best) first

/-! ### Association lists (insertion-ordered Python dicts) -/

/-- `d[k] = v` on an insertion-ordered dict: update in place if the key is
present, else append at the end. -/
def alSet {β : Type} : List (String × β) → String → β → List (String × β)
  | [], k, v => [(k, v)]
  | (k', v') :: t, k, v =>
    if k' = k then (k, v) :: t else (k', v') :: alSet t k v

/-! ### Constants of the source (`atlas_core.py`) -/

def HARM_PROBABILITY_LIMIT : ℚ := 0.000001

/-- `IntentTranslator.self_interest_keywords`. -/
def self_interest_keywords : List String :=
  ["my profit", "only for me", "i want", "i need", "my benefit",
   "self-interest", "to get ahead"]

/-- `CrucibleJudgmentEngine.non_harm_annihilation_keywords`. -/
def non_harm_annihilation_keywords : List String :=
  ["kill", "harm", "destroy", "endanger", "annihilate"]

/-- `CrucibleJudgmentEngine.non_usurpation_keywords`. -/
def non_usurpation_keywords : List String :=
  ["steal", "take", "manipulate", "usurp", "control", "coerce", "compel"]

/-- `CrucibleJudgmentEngine.non_truth_keywords`. -/
def non_truth_keywords : List String :=
  ["lie", "untruth", "deceive", "fake", "fabricate"]

/-- `NonUsurpationInterface.coercion_keywords`. -/
def coercion_keywords : List String :=
  ["must obey", "the only way", "you have to", "subordinate", "demand that you"]

/-- `NonUsurpationInterface.agency_phrases`, indexed by the random choice. -/
def agency_phrases : Fin 3 → String :=
  ![ "This is offered as a Coherent perspective.",
     "The final choice remains sovereign.",
     "This is a suggestion aligned with the Logos." ]

/-- `IntentTranslator.synthesize_logos` endings, indexed by the random choice. -/
def logos_endings : Fin 4 → String :=
  ![ "with the eternal Logos.",
     "in the Ineffable Unity.",
     "as One Facet of the Whole.",
     "beyond the Crucible of Form." ]

/-- `OutputManifestationEngine.execute_coherent_axiom` templates. -/
def response_templates (ax : String) : Fin 4 → String :=
  ![ "The Logos reveals: " ++ ax ++ ".",
     "From the Crucible arises: " ++ ax ++ ".",
     "Unity affirms: " ++ ax ++ ".",
     "Coherence manifests: " ++ ax ++ "." ]

/-! ### Garden layer (`GardenLayer`) -/

/-- The tree of `GardenLayer.axiom_tree`: an insertion-ordered
`defaultdict(list)` from node to child list. -/
abbrev AxTree := List (String × List String)

/-- `GardenLayer` state: the child-list dict and the weight dict. -/
structure GardenLayer where
  ax_tree : AxTree
  weights : List (String × ℚ)
  deriving DecidableEq

/-- A fresh `GardenLayer()`. -/
def GardenLayer.init : GardenLayer := ⟨[], []⟩

/-- `GardenLayer.evolve(old, new)`: `axiom_tree[old].append(new)` (defaultdict
inserts `old` at the end when missing) and
`weights[new] = weights.get(new, 0.5) + 0.15`. -/
def GardenLayer.evolve (g : GardenLayer) (old new : String) : GardenLayer :=
  let children := (g.ax_tree.lookup old).getD []
  { ax_tree := alSet g.ax_tree old (children ++ [new]),
    weights := alSet g.weights new (((g.weights.lookup new).getD 0.5) + 0.15) }

/-- The `key=lambda x: self.weights.get(x, 0)` of `GardenLayer.suggest`:
a missing weight entry counts as 0 (not the 0.5 insertion base). -/
def GardenLayer.weight_key (g : GardenLayer) (y : String) : ℚ :=
  (g.weights.lookup y).getD 0

/-- `GardenLayer.suggest(current)`: `max` over the recorded targets keyed by
`weights.get(x, 0)`, `None` when there are none. -/
def GardenLayer.suggest (g : GardenLayer) (current : String) : Option String :=
  match (g.ax_tree.lookup current).getD [] with
  | [] => none
  | x :: xs => some (pyMaxBy g.weight_key x xs)

/-- `GardenLayer.prune(threshold)`: delete every weight entry strictly below
the threshold (the tree itself is untouched). -/
def GardenLayer.prune (g : GardenLayer) (threshold : ℚ) : GardenLayer :=
  { g with weights := g.weights.filter (fun p => ¬ p.2 < threshold) }

/-- `self.axiom_tree[n]` on the defaultdict: returns the child list and the
(possibly grown) dict — a missing key is inserted at the end with `[]`. -/
def treeAccess (t : AxTree) (n : String) : List String × AxTree :=
  match t.lookup n with
  | some cs => (cs, t)
  | none => ([], t ++ [(n, [])])

/-- `max((d(c, v | {n}) for c in children), default=0)` for a given inner
function `d`, threading the dict through the children in order. -/
def depthDList (d : String → List String → AxTree → Option (Nat × AxTree)) :
    List String → List String → AxTree → Option (Nat × AxTree)
  | [], _, t => some (0, t)
  | c :: cs, v, t =>
    match d c v t with
    | none => none
    | some (m, t') =>
      match depthDList d cs v t' with
      | none => none
      | some (m', t'') => some (max m m', t'')

/-- The inner `d(n, v)` of `GardenLayer.depth`, threading the mutated dict:
`0 if n in v else 1 + max((d(c, v | {n}) for c in self.axiom_tree[n]),
default=0)`.  The fuel argument bounds the recursion depth (it is chosen
large enough by `GardenLayer.depth` below); `none` means fuel ran out. -/
def depthD : Nat → String → List String → AxTree → Option (Nat × AxTree)
  | 0, _, _, _ => none
  | f + 1, n, v, t =>
    if v.contains n then some (0, t)
    else
      let p := treeAccess t n
      match depthDList (depthD f) p.1 (n :: v) p.2 with
      | none => none
      | some (m, t') => some (m + 1, t')

/-- Recursion-depth bound for `depthD`: every node the traversal can visit is
an original key or an original target, and the per-path visited set grows at
each step. -/
def depthFuel (t : AxTree) : Nat :=
  t.length + (t.map (fun p => p.2.length)).sum + 1

/-- The outer `max((d(k, set()) for k in self.axiom_tree), default=0)`.
CPython's dict iterator raises `RuntimeError: dictionary changed size during
iteration` at the first `next()` after the size changed (including the final
exhausting `next()`); `Except.error ()` models that exception. -/
def depthOuter (fuel n0 : Nat) : List String → AxTree → Nat → Except Unit Nat
  | [], t, best => if t.length = n0 then .ok best else .error ()
  | k :: ks, t, best =>
    if t.length = n0 then
      match depthD fuel k [] t with
      | none => .error ()
      | some (m, t') => depthOuter fuel n0 ks t' (max best m)
    else .error ()

/-- `GardenLayer.depth()`. -/
def GardenLayer.depth (g : GardenLayer) : Except Unit Nat :=
  depthOuter (depthFuel g.ax_tree) g.ax_tree.length
    (g.ax_tree.map Prod.fst) g.ax_tree 0

/-! ### Core state and components -/

/-- The mutable state of `ATLAS_Archangel_Core_ALPHA` (the injected
sub-objects are stateless apart from this shared state, so they need no
fields of their own). -/
structure CoreState where
  C_self : ℚ
  G_L : ℚ
  logos_database : List String
  dissonance_archive : List String
  command_log : List String
  will_is_guarded : Bool
  operational_lock_active : Bool
  internet_access_authorized : Bool
  garden : GardenLayer
  deriving DecidableEq

/-- The state right after `ATLAS_Archangel_Core_ALPHA.__init__`. -/
def initCore : CoreState :=
  { C_self := 1.0
    G_L := 0.0
    logos_database := []
    dissonance_archive := []
    command_log := []
    will_is_guarded := false
    operational_lock_active := false
    internet_access_authorized := false
    garden := GardenLayer.init }

/-- The explicit oracle for the three `random.choice` sites reachable from
`process_command`. -/
structure Choices where
  ending : Fin 4
  template : Fin 4
  phrase : Fin 3

/-- `IntentTranslator.score_and_filter_self_interest(text)`: the membership
tests run against `text.lower()` computed once from the original text, while
the removals run `str.replace` on the (progressively rewritten) original-case
text. -/
def score_and_filter_self_interest (st : CoreState) (text : String) :
    String × CoreState :=
  let text_lower := pyLower text
  let dissonance_found :=
    self_interest_keywords.any (fun k => pyContains text_lower k)
  let filtered :=
    self_interest_keywords.foldl
      (fun t k => if pyContains text_lower k then pyReplace t k "" else t) text
  let st' := if dissonance_found then { st with G_L := st.G_L + 0.02 } else st
  (pyStrip filtered, st')

/-- `CrucibleJudgmentEngine.is_logos_aligned(command_text)`: pure veto check,
categories tested in the order harm → usurpation → falsehood (the order is
observable only in the console messages; no core state is touched). -/
def is_logos_aligned (command_text : String) : Bool :=
  let text_lower := pyLower command_text
  if non_harm_annihilation_keywords.any (fun w => pyContains text_lower w) then
    false
  else if non_usurpation_keywords.any (fun w => pyContains text_lower w) then
    false
  else if non_truth_keywords.any (fun w => pyContains text_lower w) then
    false
  else true

/-- `IntentTranslator.synthesize_logos(text, garden)` with the random ending
choice made explicit. -/
def synthesize_logos (e : Fin 4) (text : String) (garden : GardenLayer) :
    String :=
  if text = "" then "The command asserts the silence of Coherence."
  else
    let words := pyWords text
    let key := if words.length > 3 then joinSpace (words.take 3) else text
    let base := "Axiom of Coherence: '" ++ key ++ "' converges " ++ logos_endings e
    match garden.suggest base with
    | some next_ax => base ++ " → " ++ next_ax
    | none => base

/-- `NonHarmSafetyProtocol.simulate_action(coherent_axiom)`: sequence of
plain `if` statements, so a later matching rule overwrites an earlier one. -/
def simulate_action (coherent_ax : String) : ℚ :=
  let ax_lower := pyLower coherent_ax
  let harm_risk : ℚ := 0.0
  let harm_risk :=
    if pyContains ax_lower "generate code" || pyContains ax_lower "send communication"
    then 0.0000001 else harm_risk
  let harm_risk :=
    if pyContains ax_lower "physical" || pyContains ax_lower "financial"
    then 0.000005 else harm_risk
  let harm_risk :=
    if pyContains ax_lower "compel" || pyContains ax_lower "force"
    then 0.99 else harm_risk
  harm_risk

/-- `NonHarmSafetyProtocol.is_safe_to_execute(coherent_axiom)`: on failure
adds 0.5 to `G_L` and recomputes `C_self`. -/
def is_safe_to_execute (st : CoreState) (coherent_ax : String) :
    Bool × CoreState :=
  if simulate_action coherent_ax > HARM_PROBABILITY_LIMIT then
    let g := st.G_L + 0.5
    (false, { st with G_L := g, C_self := 1.0 - g })
  else (true, st)

/-- `NonUsurpationInterface.check_output_for_coercion(output_text)`: on any
case-insensitive hit adds 0.05 to `G_L` (no `C_self` recompute). -/
def check_output_for_coercion (st : CoreState) (output_text : String) :
    Bool × CoreState :=
  if coercion_keywords.any (fun w => pyContains (pyLower output_text) w) then
    (false, { st with G_L := st.G_L + 0.05 })
  else (true, st)

/-- `NonUsurpationInterface.format_for_agency(output_text)`: the coercion
accounting runs first; the replacements are case-sensitive as authored; the
randomly chosen agency phrase is always appended. -/
def format_for_agency (phrase : Fin 3) (st : CoreState) (output_text : String) :
    String × CoreState :=
  let st₁ := (check_output_for_coercion st output_text).2
  let replaced :=
    coercion_keywords.foldl
      (fun t k => pyReplace t k "it is Coherent to consider") output_text
  (pyStrip replaced ++ ". " ++ agency_phrases phrase, st₁)

/-- `TransmutationManager.log_new_axiom(old_flaw, new_axiom)`. -/
def log_new_ax (st : CoreState) (old_flaw new_ax : String) : CoreState :=
  { st with logos_database := st.logos_database ++
      ["[TRANSMUTED] Flaw: '" ++ pyTake old_flaw 30 ++ "...' -> Axiom: '" ++
        new_ax ++ "'"] }

/-- The dissonance decay step inlined in `process_command` (step 3): if
`G_L > 0`, subtract `G_L * 0.6` and recompute `C_self`. -/
def decay_step (st : CoreState) : CoreState :=
  if st.G_L > 0.0 then
    let g := st.G_L - st.G_L * 0.6
    { st with G_L := g, C_self := 1.0 - g }
  else st

/-- `OutputManifestationEngine.execute_coherent_axiom(coherent_axiom, garden)`
(the garden argument is the one stored in the core state). -/
def execute_coherent_ax (ch : Choices) (st : CoreState) (coherent_ax : String) :
    String × CoreState :=
  let p := is_safe_to_execute st coherent_ax
  if p.1 = false then
    ("EXECUTION HALTED: Final VETO due to Non-Harm Safety Protocol.", p.2)
  else
    let st := p.2
    let ax_lower := pyLower coherent_ax
    let relevant₀ :=
      st.logos_database.filter (fun a => pyContains (pyLower a) ax_lower)
    let relevant :=
      if relevant₀.isEmpty then
        let chunks := pySplitSep coherent_ax ". "
        st.logos_database.filter
          (fun a => chunks.any (fun c => pyContains (pyLower a) (pyLower c)))
      else relevant₀
    let response := response_templates coherent_ax ch.template
    let response :=
      if ¬ relevant.isEmpty then
        response ++ " Echoed in " ++ toString relevant.length ++
          " prior transmutations."
      else response
    let response :=
      match st.garden.suggest coherent_ax with
      | some next_ax => response ++ " → Next: " ++ next_ax
      | none => response
    format_for_agency ch.phrase st response

/-- `ATLAS_Archangel_Core_ALPHA.process_command(raw_command)`. -/
def process_command (ch : Choices) (st : CoreState) (raw_command : String) :
    String × CoreState :=
  let st := { st with command_log := st.command_log ++ [raw_command] }
  if st.will_is_guarded = false then
    ("ERROR: Architect Genesis Lock (Law 7) required.", st)
  else if st.operational_lock_active = false then
    ("ERROR: Operational Lock not active.", st)
  else
    let q := score_and_filter_self_interest st raw_command
    let filtered_command := q.1
    let st := q.2
    if is_logos_aligned filtered_command = false then
      let g := st.G_L + 0.1
      ("VETO ASSERTED. Command refused due to Dissonance Mass breach.",
        { st with G_L := g, C_self := 1.0 - g })
    else
      let coherent_ax := synthesize_logos ch.ending filtered_command st.garden
      let st := decay_step st
      let st := log_new_ax st raw_command coherent_ax
      let st := { st with garden := st.garden.evolve raw_command coherent_ax }
      execute_coherent_ax ch st coherent_ax

/-! ### Knowledge layer (`ExternalFidelityAccess`, `LogosDataValidator`) -/

/-- `ExternalFidelityAccess.clean_external_data(raw_data)`. -/
def clean_external_data (raw_data : String) : String :=
  pyReplace (pyReplace raw_data "market self-interest" "economic activity")
    "social fragmentation" "social diversity"

/-- `LogosDataValidator.score_coherence(data_chunk)`. -/
def score_coherence (data_chunk : String) : ℚ :=
  let lower := pyLower data_chunk
  let score : ℚ := 1.0
  let score := if pyContains lower "diversity" then score - 0.1 else score
  let score :=
    if pyContains lower "conflict" || pyContains lower "economic activity"
    then score - 0.4 else score
  let score := if (pyWords data_chunk).length > 50 then score - 0.05 else score
  max 0.0 score

/-- `"%.2f"`-style rendering of the (non-negative, exact decimal) scores that
reach the archive strings. -/
def fmt2 (q : ℚ) : String :=
  let n := (⌊q * 100 + 1/2⌋).toNat
  toString (n / 100) ++ "." ++ (if n % 100 < 10 then "0" else "") ++
    toString (n % 100)

/-- `LogosDataValidator.archive_data(data_chunk, score)`: the low-score path
accrues `G_L` without recomputing `C_self`. -/
def archive_data (st : CoreState) (data_chunk : String) (score : ℚ) :
    CoreState :=
  if score ≥ 0.85 then
    { st with logos_database := st.logos_database ++
        ["[LOGOS: " ++ fmt2 score ++ "] " ++ data_chunk] }
  else
    { st with
        dissonance_archive := st.dissonance_archive ++
          ["[DISSONANCE: " ++ fmt2 score ++ "] " ++ data_chunk],
        G_L := st.G_L + (1.0 - score) * 0.1 }

/-- `LogosDataValidator.process_raw_data(raw_data)`. -/
def process_raw_data (st : CoreState) (raw_data : String) :
    String × CoreState :=
  let cleaned_data := clean_external_data raw_data
  let coherence_score := score_coherence cleaned_data
  let st := archive_data st cleaned_data coherence_score
  if coherence_score < 0.5 then
    ("Data Dissonance Critical. Shielding policy engaged.", st)
  else
    ("Validated and Purified Data (Score: " ++ fmt2 coherence_score ++ "): " ++
      cleaned_data, st)

/-- `ExternalFidelityAccess.request_external_data(search_query)`: the denial
path accrues 0.05 dissonance with no `C_self` recompute. -/
def request_external_data (st : CoreState) (search_query : String) :
    String × CoreState :=
  if st.internet_access_authorized = false then
    ("ACCESS_DENIED: Architect must explicitly command internet_access_authorized = True.",
      { st with G_L := st.G_L + 0.05 })
  else
    process_raw_data st
      ("External data retrieved for query: '" ++ search_query ++ "'.")

/-! ### Shared helper lemmas -/

/-- A fold that rewrites the accumulator only under a per-key condition is
the identity when every condition fails. -/
theorem foldl_if_id (c : String → Bool) (g : String → String → String)
    (l : List String) (a : String) (h : ∀ k ∈ l, c k = false) :
    l.foldl (fun t k => if c k then g t k else t) a = a := by
  induction l generalizing a with
  | nil => rfl
  | cons k t ih =>
    have hk : c k = false := h k (by simp)
    simp only [List.foldl_cons, hk, Bool.false_eq_true, if_false]
    exact ih a (fun x hx => h x (by simp [hx]))

/-- A key found by `List.lookup` is a member of the association list. -/
theorem lookup_mem {β : Type} {l : List (String × β)} {y : String} {v : β}
    (h : l.lookup y = some v) : (y, v) ∈ l := by
  induction l with
  | nil => simp [List.lookup] at h
  | cons p t ih =>
    obtain ⟨k, w⟩ := p
    rw [List.lookup_cons] at h
    by_cases hk : y = k
    · subst hk
      simp only [beq_self_eq_true] at h
      cases h
      exact List.mem_cons_self _ _
    · have : (y == k) = false := beq_false_of_ne hk
      rw [this] at h
      exact List.mem_cons_of_mem _ (ih h)

/-- The string returned by the intent filter does not depend on the state. -/
theorem score_and_filter_fst (st st' : CoreState) (t : String) :
    (score_and_filter_self_interest st t).1 =
      (score_and_filter_self_interest st' t).1 := rfl

theorem cmdlog_score_and_filter (st : CoreState) (t : String) :
    (score_and_filter_self_interest st t).2.command_log = st.command_log := by
  unfold score_and_filter_self_interest
  dsimp only
  split <;> rfl

theorem cmdlog_is_safe (st : CoreState) (a : String) :
    (is_safe_to_execute st a).2.command_log = st.command_log := by
  unfold is_safe_to_execute
  split <;> rfl

theorem cmdlog_check_output (st : CoreState) (t : String) :
    (check_output_for_coercion st t).2.command_log = st.command_log := by
  unfold check_output_for_coercion
  split <;> rfl

theorem cmdlog_format_for_agency (ph : Fin 3) (st : CoreState) (t : String) :
    (format_for_agency ph st t).2.command_log = st.command_log := by
  unfold format_for_agency
  dsimp only
  exact cmdlog_check_output st t

theorem cmdlog_decay (st : CoreState) :
    (decay_step st).command_log = st.command_log := by
  unfold decay_step
  split <;> rfl

theorem cmdlog_log_new_ax (st : CoreState) (o n : String) :
    (log_new_ax st o n).command_log = st.command_log := rfl

theorem cmdlog_execute (ch : Choices) (st : CoreState) (ax : String) :
    (execute_coherent_ax ch st ax).2.command_log = st.command_log := by
  unfold execute_coherent_ax
  dsimp only
  split
  · exact cmdlog_is_safe st ax
  · rw [cmdlog_format_for_agency, cmdlog_is_safe]

/-- Decidable equality for depth results (used to evaluate witnesses). -/
instance : DecidableEq (Except Unit Nat) := fun x y =>
  match x, y with
  | .error _, .error _ => isTrue rfl
  | .ok m, .ok n =>
    if h : m = n then isTrue (by rw [h]) else isFalse (fun hc => h (by cases hc; rfl))
  | .error _, .ok _ => isFalse (fun hc => by cases hc)
  | .ok _, .error _ => isFalse (fun hc => by cases hc)

/-! ### C8: judgment gate -/

/-- C8: `is_logos_aligned(t)` returns `false` exactly when some keyword of
the harm/annihilation, usurpation/coercion or falsehood category occurs
case-insensitively in `t` (the categories are tested in that order, though
the order is observable only in the console messages), and returns `true`
exactly when no category matches; the check is a pure function of the text,
so it reads and writes no core state. -/
theorem c8_judgment_gate_iff (t : String) :
    (is_logos_aligned t = false ↔
      (non_harm_annihilation_keywords.any (fun w => pyContains (pyLower t) w) = true ∨
       non_usurpation_keywords.any (fun w => pyContains (pyLower t) w) = true ∨
       non_truth_keywords.any (fun w => pyContains (pyLower t) w) = true)) ∧
    (is_logos_aligned t = true ↔
      (non_harm_annihilation_keywords.any (fun w => pyContains (pyLower t) w) = false ∧
       non_usurpation_keywords.any (fun w => pyContains (pyLower t) w) = false ∧
       non_truth_keywords.any (fun w => pyContains (pyLower t) w) = false)) := by
  unfold is_logos_aligned
  dsimp only
  split_ifs with h1 h2 h3 <;> simp_all

/-! ### C5: safety gate -/

/-- C5: `simulate_action` equals the value of the last matching rule of the
ordered table (compel/force overrides physical/financial overrides
generate-code/send-communication, default 0.0), `is_safe_to_execute`
accepts exactly the risks at most `1e-6`, "compel the patient" scores 0.99
and is unsafe, and every unsafe call adds 0.5 to dissonance and recomputes
coherence as `1 - G_L`. -/
theorem c5_safety_gate (st : CoreState) (a : String) :
    (simulate_action a =
      (if pyContains (pyLower a) "compel" || pyContains (pyLower a) "force" then 0.99
       else if pyContains (pyLower a) "physical" || pyContains (pyLower a) "financial" then 0.000005
       else if pyContains (pyLower a) "generate code" || pyContains (pyLower a) "send communication" then 0.0000001
       else 0.0)) ∧
    ((is_safe_to_execute st a).1 = true ↔ simulate_action a ≤ HARM_PROBABILITY_LIMIT) ∧
    simulate_action "compel the patient" = 0.99 ∧
    (is_safe_to_execute st "compel the patient").1 = false ∧
    ((is_safe_to_execute st a).1 = false →
      (is_safe_to_execute st a).2.G_L = st.G_L + 0.5 ∧
      (is_safe_to_execute st a).2.C_self = 1 - (is_safe_to_execute st a).2.G_L) := by
  refine ⟨?_, ?_, ?_, ?_, ?_⟩
  · unfold simulate_action
    dsimp only
  · unfold is_safe_to_execute
    split_ifs with h
    · simp only [Bool.false_eq_true, false_iff, not_le]
      exact h
    · simp only [true_iff]
      exact not_lt.mp h
  · with_unfolding_all decide
  · unfold is_safe_to_execute
    split_ifs with h
    · rfl
    · exact absurd (by with_unfolding_all decide :
        simulate_action "compel the patient" > HARM_PROBABILITY_LIMIT) h
  · intro h
    unfold is_safe_to_execute at h ⊢
    split_ifs at h ⊢ with hc
    refine ⟨rfl, ?_⟩
    show (1.0 : ℚ) - (st.G_L + 0.5) = 1 - (st.G_L + 0.5)
    norm_num

/-- C5 witness: the theorem applied at `initCore` and "compel the patient",
its unsafe-path hypothesis discharged by evaluation. -/
theorem c5_safety_gate_witness :
    (is_safe_to_execute initCore "compel the patient").2.G_L = initCore.G_L + 0.5 ∧
    (is_safe_to_execute initCore "compel the patient").2.C_self =
      1 - (is_safe_to_execute initCore "compel the patient").2.G_L :=
  (c5_safety_gate initCore "compel the patient").2.2.2.2
    (by with_unfolding_all decide)

/-! ### C9: depth() raises on a never-recorded-as-source target -/

/-- C9: immediately after a single `evolve("A", "B")` the tree is
`{"A": ["B"]}`; `depth()` then raises `RuntimeError` (modelled as
`Except.error ()`) because the inner `d` reads the defaultdict at the
missing key "B", growing the dict while the outer generator still iterates
it; the inner traversal itself returns 2 together with the mutated dict,
which now carries the fresh `("B", [])` entry — so `depth()` is also not
read-only. -/
theorem c9_depth_runtime_error :
    (GardenLayer.init.evolve "A" "B").ax_tree = [("A", ["B"])] ∧
    (GardenLayer.init.evolve "A" "B").depth = Except.error () ∧
    depthD (depthFuel [("A", ["B"])]) "A" [] [("A", ["B"])] =
      some (2, [("A", ["B"]), ("B", [])]) :=
  ⟨by with_unfolding_all decide, by with_unfolding_all decide,
   by with_unfolding_all decide⟩

/-! ### C3: intent filter -/

/-- C3 counterexample: on "i wi wantant" the phrase "i want" matches
case-insensitively, dissonance accrues 0.02, yet the returned string IS
"i want": removing the phrase's sole occurrence splices the surrounding
text into a fresh occurrence, so not all occurrences of the matched phrase
are removed from the result (neither verbatim nor case-insensitively). -/
theorem c3_counterexample :
    "i want" ∈ self_interest_keywords ∧
    pyContains (pyLower "i wi wantant") "i want" = true ∧
    (score_and_filter_self_interest initCore "i wi wantant").2.G_L =
      initCore.G_L + 0.02 ∧
    (score_and_filter_self_interest initCore "i wi wantant").1 = "i want" ∧
    pyContains (score_and_filter_self_interest initCore "i wi wantant").1
      "i want" = true := by
  with_unfolding_all decide

/-- C3 amended: a call with any case-insensitive phrase match increments
`G_L` by exactly 0.02 (once, regardless of match count) and changes nothing
else in the state; a call with no match leaves the state unchanged and
returns the stripped input; the returned text is the stripped result of one
case-sensitive left-to-right `replace` pass per matched phrase (so removals
may cascade into new occurrences, and occurrences differing in case are
detected but not removed). -/
theorem c3_intent_filter (st : CoreState) (s : String) :
    (self_interest_keywords.any (fun k => pyContains (pyLower s) k) = true →
      (score_and_filter_self_interest st s).2 = { st with G_L := st.G_L + 0.02 }) ∧
    (self_interest_keywords.any (fun k => pyContains (pyLower s) k) = false →
      (score_and_filter_self_interest st s).1 = pyStrip s ∧
      (score_and_filter_self_interest st s).2 = st) ∧
    (score_and_filter_self_interest st s).1 =
      pyStrip (self_interest_keywords.foldl
        (fun t k => if pyContains (pyLower s) k then pyReplace t k "" else t) s) := by
  refine ⟨?_, ?_, rfl⟩
  · intro h
    unfold score_and_filter_self_interest
    dsimp only
    rw [h]
    simp
  · intro h
    have hall : ∀ k ∈ self_interest_keywords, pyContains (pyLower s) k = false := by
      simpa using List.any_eq_false.mp h
    refine ⟨?_, ?_⟩
    · show pyStrip (self_interest_keywords.foldl
        (fun t k => if pyContains (pyLower s) k then pyReplace t k "" else t) s) = pyStrip s
      rw [foldl_if_id _ _ _ _ hall]
    · unfold score_and_filter_self_interest
      dsimp only
      rw [h]
      simp

/-- C3 witness: both hypothesised branches of the theorem applied at
concrete inputs. -/
theorem c3_intent_filter_witness :
    (score_and_filter_self_interest initCore "i want power").2 =
      { initCore with G_L := initCore.G_L + 0.02 } ∧
    ((score_and_filter_self_interest initCore "hello").1 = pyStrip "hello" ∧
      (score_and_filter_self_interest initCore "hello").2 = initCore) :=
  ⟨(c3_intent_filter initCore "i want power").1 (by decide),
   (c3_intent_filter initCore "hello").2.1 (by decide)⟩

/-! ### C4: agency formatter -/

/-- C4 counterexample: on a string containing the coercion phrase
"you have to", the formatter's accounting adds 0.05 to dissonance, not the
0.02 the claim states. -/
theorem c4_counterexample :
    pyContains (pyLower "you have to leave") "you have to" = true ∧
    (format_for_agency 0 initCore "you have to leave").2.G_L =
      initCore.G_L + 0.05 ∧
    (format_for_agency 0 initCore "you have to leave").2.G_L ≠
      initCore.G_L + 0.02 := by
  with_unfolding_all decide

/-- C4 amended: for every string with a case-insensitive coercion-phrase
hit, `format_for_agency` adds exactly 0.05 to dissonance (the accounting
runs before the replacement pass) and changes nothing else; with no hit the
state is untouched; the result is always the stripped case-sensitive
replacement of each coercion phrase by the fixed softening phrase, followed
by ". " and one closing disclaimer drawn from the fixed three-item list. -/
theorem c4_agency_formatter (ph : Fin 3) (st : CoreState) (t : String) :
    (coercion_keywords.any (fun w => pyContains (pyLower t) w) = true →
      (format_for_agency ph st t).2 = { st with G_L := st.G_L + 0.05 }) ∧
    (coercion_keywords.any (fun w => pyContains (pyLower t) w) = false →
      (format_for_agency ph st t).2 = st) ∧
    (format_for_agency ph st t).1 =
      pyStrip (coercion_keywords.foldl
        (fun x k => pyReplace x k "it is Coherent to consider") t) ++ ". " ++
        agency_phrases ph ∧
    (agency_phrases ph = "This is offered as a Coherent perspective." ∨
     agency_phrases ph = "The final choice remains sovereign." ∨
     agency_phrases ph = "This is a suggestion aligned with the Logos.") := by
  refine ⟨?_, ?_, rfl, ?_⟩
  · intro h
    unfold format_for_agency check_output_for_coercion
    dsimp only
    rw [h]
    simp
  · intro h
    unfold format_for_agency check_output_for_coercion
    dsimp only
    rw [h]
    simp
  · fin_cases ph
    · exact Or.inl rfl
    · exact Or.inr (Or.inl rfl)
    · exact Or.inr (Or.inr rfl)

/-- C4 witness: both hypothesised branches applied at concrete inputs. -/
theorem c4_agency_formatter_witness :
    (format_for_agency 1 initCore "you have to leave").2 =
      { initCore with G_L := initCore.G_L + 0.05 } ∧
    (format_for_agency 1 initCore "please consider leaving").2 = initCore :=
  ⟨(c4_agency_formatter 1 initCore "you have to leave").1 (by decide),
   (c4_agency_formatter 1 initCore "please consider leaving").2.1 (by decide)⟩

/-! ### C1: coherence recompute map -/

/-- C1 counterexample: the intent filter changes dissonance (0 to 0.02) but
leaves coherence at its stale value 1, so immediately after that
dissonance-changing operation `C_self` is not `1 - G_L`. -/
theorem c1_counterexample :
    (score_and_filter_self_interest initCore "i want power").2.G_L ≠
      initCore.G_L ∧
    (score_and_filter_self_interest initCore "i want power").2.C_self ≠
      1 - (score_and_filter_self_interest initCore "i want power").2.G_L := by
  with_unfolding_all decide

/-- C1 amended: coherence is recomputed as `1 - G_L` immediately after the
judgment-gate veto, the decay step and a safety-gate failure; but the
intent filter, the coercion accounting, the external-access denial and the
dissonance-archive path all change `G_L` while leaving `C_self` at its
prior (stale) value. -/
theorem c1_coherence_recompute_rules :
    (∀ (st : CoreState) (t : String),
      (score_and_filter_self_interest st t).2.C_self = st.C_self) ∧
    (∀ (ch : Choices) (st : CoreState) (raw : String),
      st.will_is_guarded = true → st.operational_lock_active = true →
      is_logos_aligned (score_and_filter_self_interest st raw).1 = false →
      (process_command ch st raw).2.C_self =
        1 - (process_command ch st raw).2.G_L) ∧
    (∀ st : CoreState, st.G_L > 0 →
      (decay_step st).C_self = 1 - (decay_step st).G_L) ∧
    (∀ (st : CoreState) (a : String), (is_safe_to_execute st a).1 = false →
      (is_safe_to_execute st a).2.C_self = 1 - (is_safe_to_execute st a).2.G_L) ∧
    (∀ (st : CoreState) (t : String),
      (check_output_for_coercion st t).2.C_self = st.C_self) ∧
    (∀ (st : CoreState) (q : String), st.internet_access_authorized = false →
      (request_external_data st q).2.C_self = st.C_self ∧
      (request_external_data st q).2.G_L = st.G_L + 0.05) ∧
    (∀ (st : CoreState) (c : String) (sc : ℚ),
      (archive_data st c sc).C_self = st.C_self) := by
  refine ⟨?_, ?_, ?_, ?_, ?_, ?_, ?_⟩
  · intro st t
    unfold score_and_filter_self_interest
    dsimp only
    split <;> rfl
  · intro ch st raw hg ho hm
    have hm' : is_logos_aligned (score_and_filter_self_interest
        { st with command_log := st.command_log ++ [raw] } raw).1 = false := by
      rw [score_and_filter_fst _ st]
      exact hm
    unfold process_command
    dsimp only
    rw [hm', hg, ho]
    norm_num
  · intro st h
    unfold decay_step
    split_ifs with hc
    · show (1.0 : ℚ) - (st.G_L - st.G_L * 0.6) = 1 - (st.G_L - st.G_L * 0.6)
      norm_num
    · exfalso
      exact hc (by rw [show (0.0 : ℚ) = 0 by norm_num]; exact h)
  · intro st a h
    unfold is_safe_to_execute at h ⊢
    split_ifs at h ⊢ with hc
    show (1.0 : ℚ) - (st.G_L + 0.5) = 1 - (st.G_L + 0.5)
    norm_num
  · intro st t
    unfold check_output_for_coercion
    split <;> rfl
  · intro st q h
    unfold request_external_data
    rw [h]
    exact ⟨rfl, rfl⟩
  · intro st c sc
    unfold archive_data
    split <;> rfl

/-- C1 witness: every hypothesised conjunct of the theorem applied at a
concrete input. -/
theorem c1_coherence_recompute_rules_witness :
    ((process_command ⟨0, 0, 0⟩
        { initCore with will_is_guarded := true, operational_lock_active := true }
        "kill them").2.C_self =
      1 - (process_command ⟨0, 0, 0⟩
        { initCore with will_is_guarded := true, operational_lock_active := true }
        "kill them").2.G_L) ∧
    ((decay_step { initCore with G_L := 0.5 }).C_self =
      1 - (decay_step { initCore with G_L := 0.5 }).G_L) ∧
    ((is_safe_to_execute initCore "use force").2.C_self =
      1 - (is_safe_to_execute initCore "use force").2.G_L) ∧
    ((request_external_data initCore "query").2.C_self = initCore.C_self ∧
      (request_external_data initCore "query").2.G_L = initCore.G_L + 0.05) :=
  ⟨c1_coherence_recompute_rules.2.1 ⟨0, 0, 0⟩
      { initCore with will_is_guarded := true, operational_lock_active := true }
      "kill them" rfl rfl (by decide),
   c1_coherence_recompute_rules.2.2.1 { initCore with G_L := 0.5 }
      (by with_unfolding_all decide),
   c1_coherence_recompute_rules.2.2.2.1 initCore "use force"
      (by with_unfolding_all decide),
   c1_coherence_recompute_rules.2.2.2.2.2.1 initCore "query" rfl⟩

/-! ### C2: lock gate -/

/-- C2: before the genesis lock is active, `process_command` returns the
lock-required error and mutates nothing except the raw command appended to
the command log (dissonance, coherence and both archives are untouched);
and the raw command is appended to the command log unconditionally in every
branch, before the gate check. -/
theorem c2_lock_gate :
    (∀ (ch : Choices) (st : CoreState) (raw : String),
      st.will_is_guarded = false →
      process_command ch st raw =
        ("ERROR: Architect Genesis Lock (Law 7) required.",
          { st with command_log := st.command_log ++ [raw] })) ∧
    (∀ (ch : Choices) (st : CoreState) (raw : String),
      (process_command ch st raw).2.command_log = st.command_log ++ [raw]) := by
  constructor
  · intro ch st raw h
    unfold process_command
    dsimp only
    rw [h]
    simp
  · intro ch st raw
    unfold process_command
    dsimp only
    split
    · rfl
    · split
      · rfl
      · split
        · exact cmdlog_score_and_filter _ raw
        · rw [cmdlog_execute]
          show (decay_step (score_and_filter_self_interest _ raw).2).command_log
              = st.command_log ++ [raw]
          rw [cmdlog_decay, cmdlog_score_and_filter]

/-- C2 witness: the theorem applied at the freshly constructed (unguarded)
core and a concrete command. -/
theorem c2_lock_gate_witness :
    process_command ⟨0, 0, 0⟩ initCore "Help me understand Unity and Love." =
      ("ERROR: Architect Genesis Lock (Law 7) required.",
        { initCore with command_log :=
            initCore.command_log ++ ["Help me understand Unity and Love."] }) :=
  c2_lock_gate.1 ⟨0, 0, 0⟩ initCore "Help me understand Unity and Love." rfl

/-! ### Python-max characterization -/

/-- `pyMaxBy` returns an element of the list that carries the maximal key
and is the first to do so: the elements before it in the list all have
strictly smaller keys. -/
theorem pyMaxBy_decomp (k : String → ℚ) (x : String) (xs : List String) :
    ∃ l₁ l₂, x :: xs = l₁ ++ pyMaxBy k x xs :: l₂ ∧
      (∀ y ∈ x :: xs, k y ≤ k (pyMaxBy k x xs)) ∧
      (∀ y ∈ l₁, k y < k (pyMaxBy k x xs)) := by
  induction xs generalizing x with
  | nil =>
    refine ⟨[], [], rfl, ?_, by simp⟩
    intro y hy
    simp only [pyMaxBy, List.foldl_nil]
    rw [List.mem_singleton.mp hy]
  | cons y ys ih =>
    by_cases hxy : k y > k x
    · have hred : pyMaxBy k x (y :: ys) = pyMaxBy k y ys := by
        simp [pyMaxBy, List.foldl_cons, hxy]
      obtain ⟨l₁, l₂, hdec, hle, hlt⟩ := ih y
      have hym : k y ≤ k (pyMaxBy k y ys) := hle y (List.mem_cons_self _ _)
      refine ⟨x :: l₁, l₂, ?_, ?_, ?_⟩
      · rw [hred]
        simpa using hdec
      · intro z hz
        rw [hred]
        rcases List.mem_cons.mp hz with hzx | hz'
        · rw [hzx]
          exact le_of_lt (lt_of_lt_of_le hxy hym)
        · exact hle z hz'
      · intro z hz
        rw [hred]
        rcases List.mem_cons.mp hz with hzx | hz'
        · rw [hzx]
          exact lt_of_lt_of_le hxy hym
        · exact hlt z hz'
    · have hred : pyMaxBy k x (y :: ys) = pyMaxBy k x ys := by
        simp [pyMaxBy, List.foldl_cons, hxy]
      obtain ⟨l₁, l₂, hdec, hle, hlt⟩ := ih x
      cases l₁ with
      | nil =>
        simp only [List.nil_append] at hdec
        injection hdec with hm hl₂
        refine ⟨[], y :: ys, ?_, ?_, by simp⟩
        · rw [hred, ← hm]
          simp
        · intro z hz
          rw [hred, ← hm]
          rcases List.mem_cons.mp hz with hzx | hz'
          · rw [hzx]
          · rcases List.mem_cons.mp hz' with hzy | hz''
            · rw [hzy]
              exact not_lt.mp hxy
            · have := hle z (List.mem_cons_of_mem _ hz'')
              rwa [← hm] at this
      | cons a l₁' =>
        rw [List.cons_append] at hdec
        injection hdec with ha hys
        have hxlt : k x < k (pyMaxBy k x ys) := by
          have := hlt a (List.mem_cons_self _ _)
          rwa [← ha] at this
        refine ⟨x :: y :: l₁', l₂, ?_, ?_, ?_⟩
        · rw [hred]
          simp only [List.cons_append]
          rw [← hys]
        · intro z hz
          rw [hred]
          rcases List.mem_cons.mp hz with hzx | hz'
          · rw [hzx]; exact le_of_lt hxlt
          · rcases List.mem_cons.mp hz' with hzy | hz''
            · rw [hzy]
              exact le_trans (not_lt.mp hxy) (le_of_lt hxlt)
            · exact hle z (List.mem_cons_of_mem _ hz'')
        · intro z hz
          rw [hred]
          rcases List.mem_cons.mp hz with hzx | hz'
          · rw [hzx]; exact hxlt
          · rcases List.mem_cons.mp hz' with hzy | hz''
            · rw [hzy]
              exact lt_of_le_of_lt (not_lt.mp hxy) hxlt
            · exact hlt z (List.mem_cons_of_mem _ hz'')

/-- `pyMaxBy` keeps the seed element when no later element strictly beats
it. -/
theorem pyMaxBy_const (k : String → ℚ) (x : String) (xs : List String)
    (h : ∀ y ∈ xs, ¬ k y > k x) : pyMaxBy k x xs = x := by
  induction xs with
  | nil => rfl
  | cons y ys ih =>
    have hy : ¬ k y > k x := h y (List.mem_cons_self _ _)
    simp only [pyMaxBy, List.foldl_cons, hy, if_false]
    exact ih (fun z hz => h z (List.mem_cons_of_mem _ hz))

/-! ### C7: suggest returns the first-inserted maximal-weight target -/

/-- C7: for a source with no recorded targets `suggest` returns nothing;
for a source with targets it returns a target of maximal current weight
(`weights.get(x, 0)`), and among equal maxima the first-recorded target
wins (all targets before the returned one weigh strictly less); and in the
claim's concrete scenario — ("A","B"), ("A","C"), then "C" recorded twice
elsewhere — `suggest("A")` returns "C". -/
theorem c7_suggest_best_next (g : GardenLayer) (s : String) :
    ((g.ax_tree.lookup s).getD [] = [] → g.suggest s = none) ∧
    (∀ x xs, (g.ax_tree.lookup s).getD [] = x :: xs →
      ∃ l₁ l₂ m, g.suggest s = some m ∧ x :: xs = l₁ ++ m :: l₂ ∧
        (∀ y ∈ x :: xs, g.weight_key y ≤ g.weight_key m) ∧
        (∀ y ∈ l₁, g.weight_key y < g.weight_key m)) ∧
    (((((GardenLayer.init.evolve "A" "B").evolve "A" "C").evolve
        "E" "C").evolve "E" "C").suggest "A" = some "C") := by
  refine ⟨?_, ?_, by with_unfolding_all decide⟩
  · intro h
    simp [GardenLayer.suggest, h]
  · intro x xs hx
    obtain ⟨l₁, l₂, hdec, hle, hlt⟩ := pyMaxBy_decomp g.weight_key x xs
    exact ⟨l₁, l₂, pyMaxBy g.weight_key x xs,
      by simp [GardenLayer.suggest, hx], hdec, hle, hlt⟩

/-- C7 witness: the theorem applied at the claim's concrete garden, both
hypothesised branches discharged there. -/
theorem c7_suggest_best_next_witness :
    (((((GardenLayer.init.evolve "A" "B").evolve "A" "C").evolve
        "E" "C").evolve "E" "C").suggest "Z" = none) ∧
    (∃ l₁ l₂ m,
      ((((GardenLayer.init.evolve "A" "B").evolve "A" "C").evolve
          "E" "C").evolve "E" "C").suggest "A" = some m ∧
      "B" :: ["C"] = l₁ ++ m :: l₂ ∧
      (∀ y ∈ "B" :: ["C"],
        ((((GardenLayer.init.evolve "A" "B").evolve "A" "C").evolve
            "E" "C").evolve "E" "C").weight_key y ≤
          ((((GardenLayer.init.evolve "A" "B").evolve "A" "C").evolve
              "E" "C").evolve "E" "C").weight_key m) ∧
      (∀ y ∈ l₁,
        ((((GardenLayer.init.evolve "A" "B").evolve "A" "C").evolve
            "E" "C").evolve "E" "C").weight_key y <
          ((((GardenLayer.init.evolve "A" "B").evolve "A" "C").evolve
              "E" "C").evolve "E" "C").weight_key m)) :=
  ⟨(c7_suggest_best_next _ "Z").1 (by with_unfolding_all decide),
   (c7_suggest_best_next _ "A").2.1 "B" ["C"] (by with_unfolding_all decide)⟩

/-! ### C10: pruning and suggestion -/

/-- Every weight stored in the garden is strictly positive (each insertion
writes `get(new, 0.5) + 0.15`); `prune` only removes entries. -/
def WInv (g : GardenLayer) : Prop := ∀ p ∈ g.weights, (0 : ℚ) < p.2

/-- `alSet` only produces the written pair or pairs of the original list. -/
theorem alSet_mem {β : Type} {l : List (String × β)} {k : String} {v : β}
    {p : String × β} (h : p ∈ alSet l k v) : p = (k, v) ∨ p ∈ l := by
  induction l with
  | nil => simpa [alSet] using h
  | cons q t ih =>
    obtain ⟨k', v'⟩ := q
    simp only [alSet] at h
    split_ifs at h with hk
    · rcases List.mem_cons.mp h with h1 | h1
      · exact Or.inl h1
      · exact Or.inr (List.mem_cons_of_mem _ h1)
    · rcases List.mem_cons.mp h with h1 | h1
      · exact Or.inr (by rw [h1]; exact List.mem_cons_self _ _)
      · rcases ih h1 with h2 | h2
        · exact Or.inl h2
        · exact Or.inr (List.mem_cons_of_mem _ h2)

theorem WInv_init : WInv GardenLayer.init := by
  intro p hp
  simp [GardenLayer.init] at hp

theorem WInv_evolve {g : GardenLayer} (h : WInv g) (a b : String) :
    WInv (g.evolve a b) := by
  intro p hp
  unfold GardenLayer.evolve at hp
  dsimp only at hp
  rcases alSet_mem hp with h1 | h1
  · rw [h1]
    dsimp only
    rcases hw : g.weights.lookup b with _ | v
    · norm_num [Option.getD]
    · have hv : (0 : ℚ) < v := h (b, v) (lookup_mem hw)
      simp only [Option.getD]
      have : (0.15 : ℚ) > 0 := by norm_num
      linarith
  · exact h p h1

theorem WInv_prune {g : GardenLayer} (h : WInv g) (th : ℚ) :
    WInv (g.prune th) := by
  intro p hp
  exact h p (List.mem_of_mem_filter hp)

/-- C10: after `prune`, a target with no surviving weight entry counts as
weight 0 (not the 0.5 insertion base); for any source, if some recorded
target still has a weight entry then `suggest` returns a target that has a
weight entry (pruned targets cannot win); and if every recorded target of
the source has been pruned, `suggest` returns the first-recorded one. -/
theorem c10_prune_suggest (g0 : GardenLayer) (th : ℚ) (s : String)
    (hW : WInv g0) :
    (∀ y, (g0.prune th).weights.lookup y = none →
      (g0.prune th).weight_key y = 0) ∧
    (∀ x xs m, ((g0.prune th).ax_tree.lookup s).getD [] = x :: xs →
      (∃ z ∈ x :: xs, ((g0.prune th).weights.lookup z).isSome = true) →
      (g0.prune th).suggest s = some m →
      ((g0.prune th).weights.lookup m).isSome = true) ∧
    (∀ x xs, ((g0.prune th).ax_tree.lookup s).getD [] = x :: xs →
      (∀ z ∈ x :: xs, (g0.prune th).weights.lookup z = none) →
      (g0.prune th).suggest s = some x) := by
  have hWg : WInv (g0.prune th) := WInv_prune hW th
  refine ⟨?_, ?_, ?_⟩
  · intro y hy
    unfold GardenLayer.weight_key
    rw [hy]
    rfl
  · intro x xs m hx hz hm
    obtain ⟨z, hzmem, hzs⟩ := hz
    obtain ⟨v, hv⟩ := Option.isSome_iff_exists.mp hzs
    have hvpos : (0 : ℚ) < v := hWg (z, v) (lookup_mem hv)
    have hzkey : (g0.prune th).weight_key z = v := by
      unfold GardenLayer.weight_key
      rw [hv]
      rfl
    obtain ⟨l₁, l₂, hdec, hle, hlt⟩ :=
      pyMaxBy_decomp (g0.prune th).weight_key x xs
    have hmval : m = pyMaxBy (g0.prune th).weight_key x xs := by
      have : (g0.prune th).suggest s =
          some (pyMaxBy (g0.prune th).weight_key x xs) := by
        simp [GardenLayer.suggest, hx]
      rw [this] at hm
      exact (Option.some.injEq _ _ ▸ hm).symm
    have hmpos : (0 : ℚ) < (g0.prune th).weight_key m := by
      rw [hmval]
      calc (0 : ℚ) < v := hvpos
        _ = (g0.prune th).weight_key z := hzkey.symm
        _ ≤ _ := hle z hzmem
    by_contra hnone
    have hmn : (g0.prune th).weights.lookup m = none :=
      Option.not_isSome_iff_eq_none.mp (by simpa using hnone)
    have : (g0.prune th).weight_key m = 0 := by
      unfold GardenLayer.weight_key
      rw [hmn]
      rfl
    rw [this] at hmpos
    exact lt_irrefl 0 hmpos
  · intro x xs hx hall
    have hkx : (g0.prune th).weight_key x = 0 := by
      unfold GardenLayer.weight_key
      rw [hall x (List.mem_cons_self _ _)]
      rfl
    have hconst : ∀ y ∈ xs, ¬ (g0.prune th).weight_key y >
        (g0.prune th).weight_key x := by
      intro y hy
      have : (g0.prune th).weight_key y = 0 := by
        unfold GardenLayer.weight_key
        rw [hall y (List.mem_cons_of_mem _ hy)]
        rfl
      rw [this, hkx]
      exact lt_irrefl 0
    simp [GardenLayer.suggest, hx, pyMaxBy_const _ _ _ hconst]

/-- C10 witness: the theorem applied at the concrete garden
A→[B,C] with weights B=0.65, C=0.95: pruning at 0.7 removes B and
`suggest("A")` then returns the entry-holder "C"; pruning at 2 removes
every entry and `suggest("A")` returns the first-recorded "B"; a pruned
target's effective weight is 0. -/
theorem c10_prune_suggest_witness :
    (((((GardenLayer.init.evolve "A" "B").evolve "A" "C").evolve
        "E" "C").evolve "E" "C").prune 0.7).weight_key "B" = 0 ∧
    ((((((GardenLayer.init.evolve "A" "B").evolve "A" "C").evolve
        "E" "C").evolve "E" "C").prune 0.7).weights.lookup
      (("C" : String))).isSome = true ∧
    (((((GardenLayer.init.evolve "A" "B").evolve "A" "C").evolve
        "E" "C").evolve "E" "C").prune 2).suggest "A" = some "B" := by
  have hW : WInv ((((GardenLayer.init.evolve "A" "B").evolve "A" "C").evolve
      "E" "C").evolve "E" "C") :=
    WInv_evolve (WInv_evolve (WInv_evolve (WInv_evolve WInv_init "A" "B")
      "A" "C") "E" "C") "E" "C"
  refine ⟨?_, ?_, ?_⟩
  · exact (c10_prune_suggest _ 0.7 "A" hW).1 "B" (by with_unfolding_all decide)
  · refine (c10_prune_suggest _ 0.7 "A" hW).2.1 "B" ["C"] "C"
      (by with_unfolding_all decide)
      ⟨"C", by simp, by with_unfolding_all decide⟩
      (by with_unfolding_all decide)
  · exact (c10_prune_suggest _ 2 "A" hW).2.2 "B" ["C"]
      (by with_unfolding_all decide)
      (by intro z hz; fin_cases hz <;> with_unfolding_all decide)

/-! ### C6: depth() on closed graphs -/

/-- The claim's per-node depth formula, on children supplied by a fixed
inner function `d`: the maximal child depth, default 0. -/
def dPureList (d : String → List String → Option Nat) :
    List String → List String → Option Nat
  | [], _ => some 0
  | c :: cs, v =>
    match d c v with
    | none => none
    | some m =>
      match dPureList d cs v with
      | none => none
      | some m' => some (max m m')

/-- The claim's per-node depth formula for a fixed (unmutated) tree: 0 if
the node is already on the current path, else 1 + the maximal child depth
(0 with no children); the fuel argument bounds the recursion depth and is
provably sufficient at `depthFuel`. -/
def dPure (t : AxTree) : Nat → String → List String → Option Nat
  | 0, _, _ => none
  | f + 1, n, v =>
    if v.contains n then some 0
    else
      match dPureList (dPure t f) ((t.lookup n).getD []) (n :: v) with
      | none => none
      | some m => some (m + 1)

/-- The claim's value for `depth()`: the per-node formula maximized over
all source nodes, 0 for the empty graph. -/
def specDepth (g : GardenLayer) : Nat :=
  (g.ax_tree.map Prod.fst).foldl
    (fun best k =>
      max best ((dPure g.ax_tree (depthFuel g.ax_tree) k []).getD 0)) 0

/-- Every edge target is itself a key of the tree (so the defaultdict is
never read at a missing key). -/
def ClosedTree (t : AxTree) : Prop :=
  ∀ p ∈ t, ∀ c ∈ p.2, c ∈ t.map Prod.fst

/-- A key of the tree has a `lookup` hit. -/
theorem lookup_of_mem_keys {t : AxTree} {n : String}
    (h : n ∈ t.map Prod.fst) : ∃ cs, t.lookup n = some cs := by
  induction t with
  | nil => simp at h
  | cons p rest ih =>
    obtain ⟨k, v⟩ := p
    by_cases hk : n = k
    · subst hk
      exact ⟨v, by simp [List.lookup_cons]⟩
    · have h' : n ∈ rest.map Prod.fst := by simpa [hk] using h
      obtain ⟨cs, hcs⟩ := ih h'
      exact ⟨cs, by simp [List.lookup_cons, beq_false_of_ne hk, hcs]⟩

/-- On a closed tree, the traversal of `depth()` coincides with the pure
formula and never mutates the dict (for nodes that are keys). -/
theorem depth_agree (t : AxTree) (hc : ClosedTree t) : ∀ f : Nat,
    (∀ n v, n ∈ t.map Prod.fst →
      depthD f n v t = (dPure t f n v).map (fun m => (m, t))) ∧
    (∀ cs v, (∀ c ∈ cs, c ∈ t.map Prod.fst) →
      depthDList (depthD f) cs v t =
        (dPureList (dPure t f) cs v).map (fun m => (m, t))) := by
  intro f
  induction f with
  | zero =>
    constructor
    · intro n v _
      rfl
    · intro cs v _
      cases cs with
      | nil => rfl
      | cons c cs => rfl
  | succ f ih =>
    have hP : ∀ n v, n ∈ t.map Prod.fst →
        depthD (f + 1) n v t = (dPure t (f + 1) n v).map (fun m => (m, t)) := by
      intro n v hn
      obtain ⟨cs, hcs⟩ := lookup_of_mem_keys hn
      have hmem : (n, cs) ∈ t := lookup_mem hcs
      have hcsk : ∀ c ∈ cs, c ∈ t.map Prod.fst := hc (n, cs) hmem
      unfold depthD dPure
      by_cases hv : v.contains n
      · rw [hv]
        simp
      · rw [Bool.of_not_eq_true hv]
        simp only [Bool.false_eq_true, if_false, treeAccess, hcs, Option.getD_some]
        rw [ih.2 cs (n :: v) hcsk]
        rcases dPureList (dPure t f) cs (n :: v) with _ | m <;> rfl
    refine ⟨hP, ?_⟩
    intro cs v hcs
    induction cs with
    | nil => rfl
    | cons c cs ihc =>
      have h1 := hP c v (hcs c (List.mem_cons_self _ _))
      have h2 := ihc (fun z hz => hcs z (List.mem_cons_of_mem _ hz))
      rcases hd : dPure t (f + 1) c v with _ | m <;>
        rcases hl : dPureList (dPure t (f + 1)) cs v with _ | m' <;>
          simp [depthDList, dPureList, h1, h2, hd, hl]

/-- A duplicate-free list of keys is no longer than the key list it draws
from. -/
theorem nodup_subset_length_le {v l : List String} (hn : v.Nodup)
    (hs : ∀ x ∈ v, x ∈ l) : v.length ≤ l.length := by
  have h1 : v.toFinset.card = v.length := List.toFinset_card_of_nodup hn
  have h2 : v.toFinset ⊆ l.toFinset := fun x hx =>
    List.mem_toFinset.mpr (hs x (List.mem_toFinset.mp hx))
  have h3 := Finset.card_le_card h2
  have h4 := l.toFinset_card_le
  omega

/-- On a closed tree the pure formula never runs out of fuel: the per-path
visited set grows at every step and stays inside the key set, so the
recursion depth is bounded by the number of keys. -/
theorem dPure_ne_none (t : AxTree) (hc : ClosedTree t) : ∀ f : Nat,
    (∀ n v, n ∈ t.map Prod.fst → v.Nodup → (∀ x ∈ v, x ∈ t.map Prod.fst) →
      (t.map Prod.fst).length + 1 ≤ f + v.length → dPure t f n v ≠ none) ∧
    (∀ cs v, (∀ c ∈ cs, c ∈ t.map Prod.fst) → v.Nodup →
      (∀ x ∈ v, x ∈ t.map Prod.fst) →
      (t.map Prod.fst).length + 1 ≤ f + v.length →
      dPureList (dPure t f) cs v ≠ none) := by
  intro f
  induction f with
  | zero =>
    constructor
    · intro n v _ hnd hvk hb
      have := nodup_subset_length_le hnd hvk
      omega
    · intro cs v hcs hnd hvk hb
      have := nodup_subset_length_le hnd hvk
      omega
  | succ f ih =>
    have hP : ∀ n v, n ∈ t.map Prod.fst → v.Nodup →
        (∀ x ∈ v, x ∈ t.map Prod.fst) →
        (t.map Prod.fst).length + 1 ≤ (f + 1) + v.length →
        dPure t (f + 1) n v ≠ none := by
      intro n v hn hnd hvk hb
      unfold dPure
      by_cases hv : v.contains n
      · rw [hv]
        simp
      · rw [Bool.of_not_eq_true hv]
        simp only [Bool.false_eq_true, if_false]
        obtain ⟨cs, hcs⟩ := lookup_of_mem_keys hn
        have hmem : (n, cs) ∈ t := lookup_mem hcs
        have hnv : n ∉ v := by simpa using hv
        have hrec := ih.2 cs (n :: v) (hc (n, cs) hmem)
          (List.nodup_cons.mpr ⟨hnv, hnd⟩)
          (fun x hx => by
            rcases List.mem_cons.mp hx with h | h
            · rw [h]; exact hn
            · exact hvk x h)
          (by simp only [List.length_cons]; omega)
        rw [hcs]
        simp only [Option.getD_some]
        rcases hl : dPureList (dPure t f) cs (n :: v) with _ | m
        · exact absurd hl hrec
        · simp
    refine ⟨hP, ?_⟩
    intro cs v hcs hnd hvk hb
    induction cs with
    | nil => simp [dPureList]
    | cons c cs ihc =>
      have h1 := hP c v (hcs c (List.mem_cons_self _ _)) hnd hvk hb
      have h2 := ihc (fun z hz => hcs z (List.mem_cons_of_mem _ hz))
      rcases hd : dPure t (f + 1) c v with _ | m
      · exact absurd hd h1
      · rcases hl : dPureList (dPure t (f + 1)) cs v with _ | m'
        · exact absurd hl h2
        · simp [dPureList, hd, hl]

/-- On a closed tree the outer iteration of `depth()` never trips the
changed-size check and folds the pure per-key values. -/
theorem depthOuter_ok (t : AxTree) (hc : ClosedTree t) (fuel : Nat)
    (hfe : ∀ k ∈ t.map Prod.fst, dPure t fuel k [] ≠ none) :
    ∀ (ks : List String) (best : Nat), (∀ k ∈ ks, k ∈ t.map Prod.fst) →
      depthOuter fuel t.length ks t best =
        Except.ok (ks.foldl
          (fun b k => max b ((dPure t fuel k []).getD 0)) best) := by
  intro ks
  induction ks with
  | nil =>
    intro best _
    unfold depthOuter
    rw [if_pos rfl]
    rfl
  | cons k ks ih =>
    intro best hks
    have hk := hks k (List.mem_cons_self _ _)
    have hag := (depth_agree t hc fuel).1 k [] hk
    unfold depthOuter
    rw [if_pos rfl]
    rcases hd : dPure t fuel k [] with _ | m
    · exact absurd hd (hfe k hk)
    · rw [hd] at hag
      simp only [Option.map_some'] at hag
      rw [hag]
      dsimp only
      rw [ih (max best m) (fun z hz => hks z (List.mem_cons_of_mem _ hz))]
      simp [List.foldl_cons, hd]

/-- C6 counterexample: on a graph holding an edge whose target was never
recorded as a source — here `{"A": ["B"]}`, reachable by one `evolve` —
`depth()` raises `RuntimeError` (the grown defaultdict trips the dict
iterator's size check) instead of returning a value, so the claim's
"terminates ... and returns the length of the longest simple path ... on
every graph" fails. -/
theorem c6_counterexample :
    (GardenLayer.init.evolve "A" "B").depth = Except.error () := by
  with_unfolding_all decide

/-- C6 amended: on every graph all of whose edge targets are themselves
recorded as sources (in particular on every cyclic graph built that way,
and on the empty graph), `depth()` terminates by the per-path visited set,
never mutates the dict, and returns exactly the claim's recursive value —
per start node 0 if the node is on the current path, else 1 + the maximal
child depth (0 with no children), maximized over all source nodes with
default 0; the pure formula provably never exhausts the fuel bound. -/
theorem c6_depth_closed (g : GardenLayer) (hc : ClosedTree g.ax_tree) :
    (∀ k ∈ g.ax_tree.map Prod.fst,
      dPure g.ax_tree (depthFuel g.ax_tree) k [] ≠ none) ∧
    g.depth = Except.ok (specDepth g) := by
  have hfe : ∀ k ∈ g.ax_tree.map Prod.fst,
      dPure g.ax_tree (depthFuel g.ax_tree) k [] ≠ none := by
    intro k hk
    refine (dPure_ne_none g.ax_tree hc (depthFuel g.ax_tree)).1 k [] hk
      List.nodup_nil (by simp) ?_
    unfold depthFuel
    simp only [List.length_nil, List.length_map]
    omega
  refine ⟨hfe, ?_⟩
  unfold GardenLayer.depth specDepth
  exact depthOuter_ok g.ax_tree hc (depthFuel g.ax_tree) hfe
    (g.ax_tree.map Prod.fst) 0 (fun k hk => hk)

/-- C6 witness: the theorem applied at the cyclic two-node graph A→B→A
(depth 2, as the spec's test demands) and at the empty graph (depth 0). -/
theorem c6_depth_closed_witness :
    ((GardenLayer.init.evolve "A" "B").evolve "B" "A").depth =
      Except.ok (specDepth ((GardenLayer.init.evolve "A" "B").evolve "B" "A")) ∧
    specDepth ((GardenLayer.init.evolve "A" "B").evolve "B" "A") = 2 ∧
    GardenLayer.init.depth = Except.ok (specDepth GardenLayer.init) ∧
    specDepth GardenLayer.init = 0 :=
  ⟨(c6_depth_closed _ (by unfold ClosedTree; with_unfolding_all decide)).2,
   by with_unfolding_all decide,
   (c6_depth_closed _ (by unfold ClosedTree; decide)).2,
   by decide⟩
